import Mathlib

/-!
Verification of `src/integrations/tool-tui/crates/check/playground/cpp/sample.cpp`:
a templated LIFO stack (`sample::Stack<T>`, backed by a `std::vector<T>` named
`data_`), a recursive `factorial` over `uint64_t`, and a palindrome checker
`is_palindrome` over `std::string`.

The embedding is shallow: the vector `data_` is a Lean `List` whose last
element is the vector's back (the stack top); the mutating methods `pop` and
`top` are translated in state-passing style, returning `Except String` because
the C++ bodies `throw std::runtime_error("Stack is empty")`; `uint64_t`
arithmetic is `Nat` arithmetic reduced modulo `2 ^ 64`; C++ `char` handling
(`std::isalnum`, `std::tolower`) is modelled in the default C locale over
ASCII, which is the regime the fixture exercises.
-/

namespace Sample

/-- Embedding of `sample::Stack<T>`: the private member
`std::vector<T> data_`, as a list whose last element is the vector's back. -/
structure Stack (T : Type) where
  data : List T
deriving DecidableEq

variable {T : Type}

/-- The default constructor `Stack()`: `data_` starts empty. -/
def Stack.mkEmpty (T : Type) : Stack T := ⟨[]⟩

/-- Embedding of `void push(T value) { data_.push_back(std::move(value)); }`. -/
def Stack.push (s : Stack T) (v : T) : Stack T := ⟨s.data ++ [v]⟩

/-- Embedding of `T pop()`: throws `"Stack is empty"` when `data_.empty()`, otherwise moves
out `data_.back()` and `pop_back()`s it. State-passing translation: on success
it returns the moved-out back element together with the shrunken stack. -/
def Stack.pop (s : Stack T) : Except String (T × Stack T) :=
  if h : s.data.isEmpty then .error "Stack is empty"
  else .ok (s.data.getLast (by simpa [List.isEmpty_iff] using h), ⟨s.data.dropLast⟩)

/-- Embedding of `const T& top() const`: throws `"Stack is empty"` when `data_.empty()`,
otherwise returns `data_.back()`. The method is `const`: its state-passing
translation returns the stack it was given, unchanged. -/
def Stack.top (s : Stack T) : Except String (T × Stack T) :=
  if h : s.data.isEmpty then .error "Stack is empty"
  else .ok (s.data.getLast (by simpa [List.isEmpty_iff] using h), s)

/-- Embedding of `bool empty() const noexcept { return data_.empty(); }`. -/
def Stack.empty (s : Stack T) : Bool := s.data.isEmpty

/-- Embedding of `size_t size() const noexcept { return data_.size(); }`. -/
def Stack.size (s : Stack T) : Nat := s.data.length

/-- A sequence of `push` calls, first list element pushed first. -/
def Stack.pushAll (s : Stack T) (vs : List T) : Stack T :=
  vs.foldl Stack.push s

/-- `n` consecutive `pop` calls, collecting the returned values in call
order; the first failing `pop` propagates its error. -/
def Stack.popN (s : Stack T) : Nat → Except String (List T × Stack T)
  | 0 => .ok ([], s)
  | n + 1 =>
    match s.pop with
    | .error e => .error e
    | .ok (v, s') =>
      match s'.popN n with
      | .error e => .error e
      | .ok (vs, s'') => .ok (v :: vs, s'')

/-- An operation performed on a stack: a `push` of a value, or a `pop`. -/
inductive Op (T : Type) where
  | push (v : T)
  | pop
deriving DecidableEq

/-- Number of `push` operations in a list of operations. -/
def countPush : List (Op T) → Nat
  | [] => 0
  | Op.push _ :: rest => countPush rest + 1
  | Op.pop :: rest => countPush rest

/-- Number of `pop` operations in a list of operations. -/
def countPop : List (Op T) → Nat
  | [] => 0
  | Op.push _ :: rest => countPop rest
  | Op.pop :: rest => countPop rest + 1

/-- Run a list of operations left to right on a stack; a failing `pop`
propagates its error and stops the run. -/
def Stack.runOps (s : Stack T) : List (Op T) → Except String (Stack T)
  | [] => .ok s
  | Op.push v :: rest => (s.push v).runOps rest
  | Op.pop :: rest =>
    match s.pop with
    | .error e => .error e
    | .ok (_, s') => s'.runOps rest

/-- Embedding of `constexpr uint64_t factorial(uint64_t n) { return n <= 1 ? 1 : n * factorial(n - 1); }`
`uint64_t` values are Nats below `2 ^ 64`; the multiplication wraps, so each
recursive step reduces the product modulo `2 ^ 64`. -/
def factorial : Nat → Nat
  | 0 => 1
  | 1 => 1
  | n + 2 => ((n + 2) * factorial (n + 1)) % 2 ^ 64

/-- Fuel-instrumented variant of `factorial`: each recursive call consumes one
unit of fuel and exhausted fuel yields `none`. Used to state that the
recursion of the source function is well-founded with depth at most `n`. -/
def factorialFuel : Nat → Nat → Option Nat
  | 0, _ => none
  | fuel + 1, n =>
    if n ≤ 1 then some 1
    else
      match factorialFuel fuel (n - 1) with
      | none => none
      | some r => some ((n * r) % 2 ^ 64)

/-- Embedding of `std::isalnum` in the default C locale, over ASCII: decimal digits,
uppercase latin letters, lowercase latin letters. -/
def isalnum (c : Char) : Bool :=
  ('0' ≤ c && c ≤ '9') || ('A' ≤ c && c ≤ 'Z') || ('a' ≤ c && c ≤ 'z')

/-- Embedding of `std::tolower` in the default C locale, over ASCII: maps an uppercase
latin letter to its lowercase form, leaves every other character unchanged. -/
def tolower (c : Char) : Char :=
  if 'A' ≤ c && c ≤ 'Z' then Char.ofNat (c.toNat + 32) else c

/-- Embedding of `bool is_palindrome(const std::string& str)`: `std::copy_if` the
`isalnum` characters into `cleaned`, `std::reverse` a copy into `reversed`,
then `std::equal` over the two ranges with a `tolower` comparator. -/
def is_palindrome (str : String) : Bool :=
  let cleaned := str.data.filter isalnum
  let reversed := cleaned.reverse
  (List.zipWith (fun a b => tolower a == tolower b) cleaned reversed).all id

/-- The palindrome property as the spec words it: the subsequence of
alphanumeric characters, compared case-insensitively (i.e. after
case-folding), reads identically forward and backward. -/
def palindromeSpec (str : String) : Prop :=
  ((str.data.filter isalnum).map tolower).reverse =
    (str.data.filter isalnum).map tolower

/-- On a non-empty stack, `pop` succeeds with the back element and the
remaining prefix. -/
lemma pop_of_ne_nil (s : Stack T) (h : s.data ≠ []) :
    s.pop = Except.ok (s.data.getLast h, ⟨s.data.dropLast⟩) := by
  simp [Stack.pop, List.isEmpty_iff, h]

/-- On a non-empty stack, `top` succeeds with the back element and the same
stack. -/
lemma top_of_ne_nil (s : Stack T) (h : s.data ≠ []) :
    s.top = Except.ok (s.data.getLast h, s) := by
  simp [Stack.top, List.isEmpty_iff, h]

/-- On an empty stack, `pop` fails with the empty-container message. -/
lemma pop_of_nil (s : Stack T) (h : s.data = []) :
    s.pop = Except.error "Stack is empty" := by
  simp [Stack.pop, h]

/-- On an empty stack, `top` fails with the empty-container message. -/
lemma top_of_nil (s : Stack T) (h : s.data = []) :
    s.top = Except.error "Stack is empty" := by
  simp [Stack.top, h]

/-- C2: `pop()` and `top()` signal the empty-container failure exactly when
the stack is empty, that failure is the only one either operation can signal,
and on a non-empty stack both succeed. The embedding is state-passing, so a
failing call produces no successor state: the caller's stack is unchanged. -/
theorem pop_top_empty_failure (T : Type) (s : Stack T) :
    (s.pop = Except.error "Stack is empty" ↔ s.data = []) ∧
    (s.top = Except.error "Stack is empty" ↔ s.data = []) ∧
    (∀ e, s.pop = Except.error e → e = "Stack is empty") ∧
    (∀ e, s.top = Except.error e → e = "Stack is empty") ∧
    (s.data ≠ [] →
      (∃ v s', s.pop = Except.ok (v, s')) ∧ ∃ v, s.top = Except.ok (v, s)) := by
  by_cases h : s.data = []
  · refine ⟨by simp [pop_of_nil s h, h], by simp [top_of_nil s h, h], ?_, ?_,
      fun hne => absurd h hne⟩
    · intro e he
      rw [pop_of_nil s h] at he
      injection he with he'
      exact he'.symm
    · intro e he
      rw [top_of_nil s h] at he
      injection he with he'
      exact he'.symm
  · refine ⟨by simp [pop_of_ne_nil s h, h], by simp [top_of_ne_nil s h, h],
      ?_, ?_, fun _ => ⟨⟨s.data.getLast h, ⟨s.data.dropLast⟩, pop_of_ne_nil s h⟩,
        s.data.getLast h, top_of_ne_nil s h⟩⟩
    · intro e he
      rw [pop_of_ne_nil s h] at he
      exact absurd he (by simp)
    · intro e he
      rw [top_of_ne_nil s h] at he
      exact absurd he (by simp)

/-- Witness for C2 at the concrete stacks `⟨[]⟩` and `⟨[5]⟩` over `Nat`. -/
theorem pop_top_empty_failure_witness :
    (Stack.pop (⟨[]⟩ : Stack Nat) = Except.error "Stack is empty") ∧
    ((⟨[5]⟩ : Stack Nat).data ≠ [] ∧
      (∃ v s', Stack.pop (⟨[5]⟩ : Stack Nat) = Except.ok (v, s')) ∧
      ∃ v, Stack.top (⟨[5]⟩ : Stack Nat) = Except.ok (v, ⟨[5]⟩)) :=
  ⟨(pop_top_empty_failure Nat ⟨[]⟩).1.mpr rfl,
    by simp, (pop_top_empty_failure Nat ⟨[5]⟩).2.2.2.2 (by simp)⟩

/-- C6: `push(v)` always succeeds, makes `v` the new top, grows `size()` by
one, and leaves all previously stored elements unchanged and in order. -/
theorem push_succeeds_and_preserves (T : Type) (s : Stack T) (v : T) :
    (s.push v).top = Except.ok (v, s.push v) ∧
    (s.push v).size = s.size + 1 ∧
    (s.push v).data = s.data ++ [v] := by
  refine ⟨?_, by simp [Stack.push, Stack.size], rfl⟩
  have h : (s.push v).data ≠ [] := by simp [Stack.push]
  rw [top_of_ne_nil _ h]
  simp [Stack.push, List.getLast_append_singleton]

/-- C7: `top()` is a pure query: whenever it succeeds, the stack it hands
back has the same size and the same stored sequence as the one it was given,
and on any non-empty stack it does succeed, returning that same stack. -/
theorem top_preserves_stack (T : Type) (s : Stack T) :
    (∀ v s', s.top = Except.ok (v, s') → s'.size = s.size ∧ s'.data = s.data) ∧
    (s.data ≠ [] → ∃ v, s.top = Except.ok (v, s)) := by
  constructor
  · intro v s' hok
    by_cases h : s.data = []
    · rw [top_of_nil s h] at hok
      exact absurd hok (by simp)
    · rw [top_of_ne_nil s h] at hok
      have hpair := Except.ok.inj hok
      have hs : s = s' := congrArg Prod.snd hpair
      exact ⟨by rw [← hs], by rw [← hs]⟩
  · intro h
    exact ⟨s.data.getLast h, top_of_ne_nil s h⟩

/-- Witness for C7 at the concrete stack `⟨[7]⟩` over `Nat`. -/
theorem top_preserves_stack_witness :
    ((⟨[7]⟩ : Stack Nat).top = Except.ok (7, (⟨[7]⟩ : Stack Nat)) →
      (⟨[7]⟩ : Stack Nat).size = (⟨[7]⟩ : Stack Nat).size) ∧
    ((⟨[7]⟩ : Stack Nat).data ≠ [] ∧
      ∃ v, (⟨[7]⟩ : Stack Nat).top = Except.ok (v, (⟨[7]⟩ : Stack Nat))) :=
  ⟨fun h => ((top_preserves_stack Nat ⟨[7]⟩).1 7 ⟨[7]⟩ h).1,
    by simp, (top_preserves_stack Nat ⟨[7]⟩).2 (by simp)⟩

/-- C10: on a non-empty stack, `top()` returns exactly the value `pop()`
returns, and `pop()` removes exactly that one element, leaving the remaining
elements unchanged in order. -/
theorem top_pop_agreement (T : Type) (s : Stack T) (h : s.data ≠ []) :
    ∃ v s', s.pop = Except.ok (v, s') ∧ s.top = Except.ok (v, s) ∧
      s.data = s'.data ++ [v] := by
  refine ⟨s.data.getLast h, ⟨s.data.dropLast⟩, pop_of_ne_nil s h,
    top_of_ne_nil s h, ?_⟩
  exact (List.dropLast_append_getLast h).symm

/-- Witness for C10 at the concrete stack `⟨[1, 2]⟩` over `Nat`. -/
theorem top_pop_agreement_witness :
    (⟨[1, 2]⟩ : Stack Nat).data ≠ [] ∧
    ∃ v s', (⟨[1, 2]⟩ : Stack Nat).pop = Except.ok (v, s') ∧
      (⟨[1, 2]⟩ : Stack Nat).top = Except.ok (v, (⟨[1, 2]⟩ : Stack Nat)) ∧
      (⟨[1, 2]⟩ : Stack Nat).data = s'.data ++ [v] :=
  ⟨by simp, top_pop_agreement Nat ⟨[1, 2]⟩ (by simp)⟩

/-- Pushing a list of values appends it, in order, to the stored sequence. -/
lemma pushAll_data : ∀ (vs : List T) (s : Stack T),
    (s.pushAll vs).data = s.data ++ vs
  | [], s => by simp [Stack.pushAll]
  | v :: vs, s => by
    have step : (s.push v).pushAll vs = s.pushAll (v :: vs) := rfl
    rw [← step, pushAll_data vs (s.push v)]
    simp [Stack.push]

/-- Popping a stack holding `l` exactly `l.length` times drains it, yielding
the elements back-to-front. -/
lemma popN_full (l : List T) :
    Stack.popN ⟨l⟩ l.length = Except.ok (l.reverse, (⟨[]⟩ : Stack T)) := by
  induction l using List.reverseRecOn with
  | nil => rfl
  | append_singleton l a ih =>
    have hne : (⟨l ++ [a]⟩ : Stack T).data ≠ [] := by simp
    have hlen : (l ++ [a]).length = l.length + 1 := by simp
    rw [hlen]
    simp only [Stack.popN, pop_of_ne_nil _ hne]
    have hback : (⟨l ++ [a]⟩ : Stack T).data.getLast hne = a := by
      simp [List.getLast_append_singleton]
    have hrest : (⟨l ++ [a]⟩ : Stack T).data.dropLast = l := by
      simp
    rw [hback, hrest, ih]
    simp

/-- C1: pushing `v1..vk` onto an initially empty stack and then popping `k`
times returns the values in exact reverse order of insertion (LIFO law). -/
theorem stack_lifo_law (T : Type) (vs : List T) :
    ((Stack.mkEmpty T).pushAll vs).popN vs.length =
      Except.ok (vs.reverse, Stack.mkEmpty T) := by
  have hd : ((Stack.mkEmpty T).pushAll vs).data = vs := by
    rw [pushAll_data]
    rfl
  have hs : (Stack.mkEmpty T).pushAll vs = (⟨vs⟩ : Stack T) := by
    cases he : (Stack.mkEmpty T).pushAll vs
    rw [he] at hd
    simp_all
  rw [hs]
  exact popN_full vs

/-- Running a list of operations trades sizes for operation counts: final
size plus the number of pops equals initial size plus the number of pushes. -/
lemma runOps_size : ∀ (ops : List (Op T)) (s s' : Stack T),
    Stack.runOps s ops = Except.ok s' →
    s'.size + countPop ops = s.size + countPush ops
  | [], s, s', h => by
    simp [Stack.runOps] at h
    simp [h, countPop, countPush]
  | Op.push v :: rest, s, s', h => by
    simp only [Stack.runOps] at h
    have := runOps_size rest (s.push v) s' h
    simp only [countPush, countPop, Stack.push, Stack.size] at this ⊢
    simp [Stack.size] at this
    omega
  | Op.pop :: rest, s, s', h => by
    simp only [Stack.runOps] at h
    by_cases hd : s.data = []
    · rw [pop_of_nil s hd] at h
      simp at h
    · rw [pop_of_ne_nil s hd] at h
      simp only [] at h
      have := runOps_size rest ⟨s.data.dropLast⟩ s' h
      have hlen : s.data.dropLast.length = s.data.length - 1 :=
        List.length_dropLast _
      have hpos : 1 ≤ s.data.length := by
        cases hs : s.data with
        | nil => exact absurd hs hd
        | cons x xs => simp [hs]
      simp only [countPush, countPop, Stack.size] at this ⊢
      omega

/-- C5: a stack built from empty by a run of operations in which every pop
succeeded has `size()` equal to pushes minus pops; in particular the pops
never outnumber the pushes. -/
theorem stack_size_invariant (T : Type) (ops : List (Op T)) (s : Stack T)
    (h : Stack.runOps (Stack.mkEmpty T) ops = Except.ok s) :
    countPop ops ≤ countPush ops ∧
    s.size = countPush ops - countPop ops := by
  have hsz := runOps_size ops (Stack.mkEmpty T) s h
  have h0 : (Stack.mkEmpty T).size = 0 := rfl
  rw [h0] at hsz
  omega

/-- Witness for C5 on the run `push 1; push 2; pop` over `Nat`. -/
theorem stack_size_invariant_witness :
    Stack.runOps (Stack.mkEmpty Nat) [Op.push 1, Op.push 2, Op.pop] =
      Except.ok ⟨[1]⟩ ∧
    (countPop ([Op.push 1, Op.push 2, Op.pop] : List (Op Nat)) ≤
        countPush ([Op.push 1, Op.push 2, Op.pop] : List (Op Nat)) ∧
      (⟨[1]⟩ : Stack Nat).size =
        countPush ([Op.push 1, Op.push 2, Op.pop] : List (Op Nat)) -
          countPop ([Op.push 1, Op.push 2, Op.pop] : List (Op Nat))) :=
  ⟨by rfl, stack_size_invariant Nat [Op.push 1, Op.push 2, Op.pop] ⟨[1]⟩ (by rfl)⟩

/-- A `std::equal` with an `f`-comparator over two ranges of equal length
holds exactly when the `f`-images of the ranges coincide. -/
lemma zipWith_beq_all_iff (f : Char → Char) :
    ∀ (l₁ l₂ : List Char), l₁.length = l₂.length →
      ((List.zipWith (fun a b => f a == f b) l₁ l₂).all id = true ↔
        l₁.map f = l₂.map f)
  | [], [], _ => by simp
  | [], _ :: _, h => by simp at h
  | _ :: _, [], h => by simp at h
  | a :: l₁, b :: l₂, h => by
    simp only [List.zipWith_cons_cons, List.all_cons, List.map_cons, id,
      Bool.and_eq_true, beq_iff_eq]
    rw [zipWith_beq_all_iff f l₁ l₂ (by simpa using h)]
    constructor
    · intro hab
      simp [hab.1, hab.2]
    · intro hab
      injection hab with h1 h2
      exact ⟨h1, h2⟩

/-- C3: `is_palindrome(s)` is true exactly when the alphanumeric subsequence
of `s`, compared case-insensitively, reads identically forward and backward;
in particular it accepts "A man a plan a canal Panama" and rejects "hello". -/
theorem is_palindrome_correct :
    (∀ s : String, is_palindrome s = true ↔ palindromeSpec s) ∧
    is_palindrome "A man a plan a canal Panama" = true ∧
    is_palindrome "hello" = false := by
  refine ⟨?_, by decide, by decide⟩
  intro s
  simp only [is_palindrome, palindromeSpec]
  rw [zipWith_beq_all_iff tolower _ _ (by simp)]
  rw [List.map_reverse]
  exact ⟨fun h => h.symm, fun h => h.symm⟩

/-- C9: an input that is empty, or whose characters are all
non-alphanumeric, is reported a palindrome. -/
theorem palindrome_trivial (s : String)
    (h : s.data.filter isalnum = []) : is_palindrome s = true := by
  simp [is_palindrome, h]

/-- Witness for C9 at the empty string. -/
theorem palindrome_trivial_witness :
    ("".data.filter isalnum = []) ∧ is_palindrome "" = true :=
  ⟨rfl, palindrome_trivial "" rfl⟩

/-- C4: over `uint64_t` (Nats below `2 ^ 64`), `factorial` satisfies the
source recurrence — `1` when `n ≤ 1`, else `n * factorial (n - 1)` with the
product wrapped modulo `2 ^ 64` — and takes the documented concrete values. -/
theorem factorial_recurrence :
    (∀ n : Nat, n < 2 ^ 64 →
      factorial n = if n ≤ 1 then 1 else (n * factorial (n - 1)) % 2 ^ 64) ∧
    factorial 0 = 1 ∧ factorial 1 = 1 ∧ factorial 5 = 120 := by
  refine ⟨?_, rfl, rfl, by decide⟩
  intro n _
  match n with
  | 0 => rfl
  | 1 => rfl
  | n + 2 =>
    rw [if_neg (by omega)]
    rfl

/-- Witness for C4 at `n = 5`. -/
theorem factorial_recurrence_witness :
    (5 : Nat) < 2 ^ 64 ∧
    factorial 5 = if (5 : Nat) ≤ 1 then 1 else (5 * factorial (5 - 1)) % 2 ^ 64 :=
  ⟨by decide, factorial_recurrence.1 5 (by decide)⟩

/-- C8: `factorial` is total: the recursion `n → n - 1` with base case
`n ≤ 1` is well-founded, and fuel `n + 1` always suffices for the
fuel-instrumented version to return the value of `factorial n`. -/
theorem factorial_total : ∀ n : Nat,
    factorialFuel (n + 1) n = some (factorial n)
  | 0 => rfl
  | 1 => rfl
  | n + 2 => by
    have ih := factorial_total (n + 1)
    rw [factorialFuel]
    rw [if_neg (by omega)]
    have hsub : n + 2 - 1 = n + 1 := rfl
    rw [hsub, ih]
    rfl

end Sample
